import Mathlib

/-!
Verification development for the download-completion watcher of the
Fantasy-Map-Generator automation scripts.

The scripts serve the web app, drive a browser, trigger a JSON export and
then poll a download directory for the resulting file.  The piece with
logic is the function `waitForDownload` (with its inner polling closure
`checkDownload`), translated here into a shallow embedding.

Modelling choices:
- Time is `Nat` milliseconds.  `Date.now()` at a poll is the time of the poll.
- The filesystem is an environment `Env` giving, at each instant, the
  result of `fs.readdirSync` on the watched directory and of
  `fs.statSync(...).size` on a named entry; either can fail with an I/O
  error (a thrown exception in the source, `Except.error` here).
- The nested `setTimeout(..., 100)` callbacks advance time by exactly
  100 ms (the hard-coded poll interval of the source).
- The recursion of `checkDownload` is not structurally decreasing (the
  source loop need not terminate), so the embedding takes a fuel
  argument counting poll cycles; `none` means the watcher has not
  resolved after that many cycles.
-/

namespace FMG

/-- I/O error payloads (the message of a thrown Node.js filesystem error). -/
abbrev IOErr := String

/-- The observed filesystem: at time `t`, `listDir t` is what
`fs.readdirSync(downloadPath)` returns (entry names in enumeration
order), and `statSize t name` is what `fs.statSync(path.join(downloadPath, name)).size`
returns.  `Except.error` models a thrown filesystem exception. -/
structure Env where
  listDir : Nat → Except IOErr (List String)
  statSize : Nat → String → Except IOErr Nat

/-- Translation of `path.join(downloadPath, name)` for a directory path and
a plain entry name. -/
def pathJoin (dir name : String) : String :=
  dir ++ "/" ++ name

/-- How one watcher invocation resolves, together with the time at which it
resolves: `completed path t` is `resolve(filePath)`, `timedOut t` is
`resolve(null)` after the timeout log, `failed e t` is a filesystem
exception thrown at time `t` (which in the source propagates out of the
watch instead of resolving the promise). -/
inductive WatchOutcome where
  | completed (path : String) (t : Nat)
  | timedOut (t : Nat)
  | failed (e : IOErr) (t : Nat)
deriving DecidableEq, Repr

/-- Translation of the inner closure `checkDownload` of `waitForDownload`
(src/unnamed/part_000 lines 67-91, src/entry.cjs lines 261-285), running at
time `t` with `fuel` remaining poll cycles:

- list the directory; `newFiles` is the current listing filtered by
  `!initialFiles.includes(file)`;
- if `newFiles` is nonempty, stat the first new entry, wait 100 ms, stat it
  again; equal sizes resolve with the joined path, different sizes re-enter
  `checkDownload` immediately (at the later time);
- otherwise, if `Date.now() - startTime < timeout`, poll again after
  100 ms, else resolve with the timeout signal.

`none` means the loop is still running after `fuel` cycles. -/
def checkDownload (env : Env) (dir : String) (t0 timeout : Nat)
    (initialFiles : List String) : Nat → Nat → Option WatchOutcome
  | _, 0 => none
  | t, fuel+1 =>
    match env.listDir t with
    | .error e => some (.failed e t)
    | .ok currentFiles =>
      match currentFiles.filter (fun f => !(initialFiles.contains f)) with
      | name :: _ =>
        match env.statSize t name with
        | .error e => some (.failed e t)
        | .ok fileSizeBefore =>
          match env.statSize (t + 100) name with
          | .error e => some (.failed e (t + 100))
          | .ok fileSizeAfter =>
            if fileSizeBefore = fileSizeAfter then
              some (.completed (pathJoin dir name) (t + 100))
            else
              checkDownload env dir t0 timeout initialFiles (t + 100) fuel
      | [] =>
        if t - t0 < timeout then
          checkDownload env dir t0 timeout initialFiles (t + 100) fuel
        else
          some (.timedOut t)

/-- Translation of `waitForDownload` (src/unnamed/part_000 lines 62-95,
src/entry.cjs lines 256-288): capture `startTime` and the baseline listing
`initialFiles`, then run the first `checkDownload` synchronously.  A failure
of the baseline `readdirSync` is thrown inside the promise executor and so
rejects (here: `failed`).  The source default for `timeout` is 30000. -/
def waitForDownload (env : Env) (dir : String) (t0 : Nat)
    (timeout : Nat := 30000) (fuel : Nat := 0) : Option WatchOutcome :=
  match env.listDir t0 with
  | .error e => some (.failed e t0)
  | .ok initialFiles => checkDownload env dir t0 timeout initialFiles t0 fuel

/-- Observable state of the orchestration after the export step: console
messages emitted, whether `browser.close()` and `server.close()` were
reached, and the process exit code. -/
structure MainOutcome where
  messages : List String
  browserClosed : Bool
  serverClosed : Bool
  exitCode : Nat
deriving DecidableEq, Repr

/-- Translation of the tail of the main IIFE (src/unnamed/part_000 lines
131-147, src/entry.cjs lines 237-253) as a function of how the watch
resolved:

- `completed p`: `browser.close()`, `server.close()`, success log, the
  async function resolves, the process exits 0;
- `timedOut` (the watcher resolved `null`): same cleanup, then
  `console.error(..)` on the else branch — and the async function still
  resolves normally, so the process exits 0;
- `failed e` (a thrown filesystem error): the rejection skips the cleanup
  lines and reaches `.catch(err => { console.error(..); process.exit(1); })`. -/
def mainFinish (downloadPath : String) (w : WatchOutcome) : MainOutcome :=
  match w with
  | .completed p _ =>
    ⟨["JSON file successfully downloaded to: " ++ p], true, true, 0⟩
  | .timedOut _ =>
    ⟨["Failed to download JSON file to: " ++ downloadPath], true, true, 0⟩
  | .failed e _ =>
    ⟨["Error occurred: " ++ e], false, false, 1⟩

/-- Joining a fixed directory with two entry names yields equal paths only
for equal names. -/
theorem pathJoin_right_inj (dir a b : String) (h : pathJoin dir a = pathJoin dir b) :
    a = b := by
  have hd : (pathJoin dir a).data = (pathJoin dir b).data := by rw [h]
  cases dir with
  | mk ld =>
    cases a with
    | mk la =>
      cases b with
      | mk lb =>
        simp only [pathJoin, String.data_append] at hd
        exact congrArg String.mk (List.append_cancel_left hd)

/-- A listing all of whose entries are already in the baseline produces an
empty `newFiles` list. -/
theorem filter_new_eq_nil (init cur : List String) (hsub : ∀ a ∈ cur, a ∈ init) :
    cur.filter (fun f => !(init.contains f)) = [] := by
  rw [List.filter_eq_nil_iff]
  intro a ha
  have hc : init.elem a = true := List.elem_eq_true_of_mem (hsub a ha)
  simp [List.contains, hc]
  exact hsub a ha

/-- Inversion for a completed watch: the watcher resolved with a path only
because some poll at a time `u` listed a nonempty `newFiles`, the head of
which was statted at `u` and again at `u + 100` with the same size, and the
resolved path is the directory joined with that head entry. -/
theorem checkDownload_completed_inv (env : Env) (dir : String) (t0 timeout : Nat)
    (init : List String) :
    ∀ fuel t p tc,
      checkDownload env dir t0 timeout init t fuel = some (WatchOutcome.completed p tc) →
      ∃ u cur name rest s,
        t ≤ u ∧
        env.listDir u = Except.ok cur ∧
        cur.filter (fun f => !(init.contains f)) = name :: rest ∧
        env.statSize u name = Except.ok s ∧
        env.statSize (u + 100) name = Except.ok s ∧
        p = pathJoin dir name ∧ tc = u + 100 := by
  intro fuel
  induction fuel with
  | zero =>
    intro t p tc h
    simp [checkDownload] at h
  | succ f ih =>
    intro t p tc h
    rw [checkDownload] at h
    split at h
    · simp at h
    · rename_i currentFiles hL
      split at h
      · rename_i name rest hf
        split at h
        · simp at h
        · rename_i s1 hs1
          split at h
          · simp at h
          · rename_i s2 hs2
            split at h
            · rename_i hsz
              rw [Option.some_inj] at h
              obtain ⟨hp, htc⟩ := WatchOutcome.completed.inj h.symm
              subst hsz
              exact ⟨t, currentFiles, name, rest, s1, le_refl t, hL, hf, hs1, hs2,
                hp, htc⟩
            · obtain ⟨u, cur, name2, rest2, s, hu, h2, h3, h4, h5, h6, h7⟩ :=
                ih (t + 100) p tc h
              exact ⟨u, cur, name2, rest2, s, by omega, h2, h3, h4, h5, h6, h7⟩
      · rename_i hf
        split at h
        · obtain ⟨u, cur, name2, rest2, s, hu, h2, h3, h4, h5, h6, h7⟩ :=
            ih (t + 100) p tc h
          exact ⟨u, cur, name2, rest2, s, by omega, h2, h3, h4, h5, h6, h7⟩
        · simp at h

/-- Inversion for a timed-out watch: the timeout signal is produced at a
poll `u` whose listing succeeded, showed no entries beyond the baseline,
and whose elapsed time `u - t0` had reached the timeout. -/
theorem checkDownload_timedOut_inv (env : Env) (dir : String) (t0 timeout : Nat)
    (init : List String) :
    ∀ fuel t u, t0 ≤ t →
      checkDownload env dir t0 timeout init t fuel = some (WatchOutcome.timedOut u) →
      t0 ≤ u ∧ timeout ≤ u - t0 ∧
      ∃ cur, env.listDir u = Except.ok cur ∧
        cur.filter (fun f => !(init.contains f)) = [] := by
  intro fuel
  induction fuel with
  | zero =>
    intro t u ht h
    simp [checkDownload] at h
  | succ f ih =>
    intro t u ht h
    rw [checkDownload] at h
    split at h
    · simp at h
    · rename_i currentFiles hL
      split at h
      · rename_i name rest hf
        split at h
        · simp at h
        · split at h
          · simp at h
          · split at h
            · simp at h
            · exact ih (t + 100) u (by omega) h
      · rename_i hf
        split at h
        · exact ih (t + 100) u (by omega) h
        · rename_i hlt
          rw [Option.some_inj] at h
          obtain htu := WatchOutcome.timedOut.inj h.symm
          subst htu
          exact ⟨ht, by omega, currentFiles, hL, hf⟩

/-- Progress: when every poll from `t` on lists successfully and shows no
entry beyond the baseline, the loop keeps polling every 100 ms and resolves
with the timeout signal at the first poll whose elapsed time reaches the
timeout, provided the fuel covers `timeout` worth of 100 ms cycles. -/
theorem checkDownload_no_new_times_out (env : Env) (dir : String) (t0 timeout : Nat)
    (init : List String)
    (hno : ∀ t, t0 ≤ t → ∃ cur, env.listDir t = Except.ok cur ∧
      cur.filter (fun f => !(init.contains f)) = []) :
    ∀ fuel t, t0 ≤ t → timeout ≤ t - t0 + 100 * fuel →
      ∃ u, t ≤ u ∧ timeout ≤ u - t0 ∧
        checkDownload env dir t0 timeout init t (fuel + 1) =
          some (WatchOutcome.timedOut u) := by
  intro fuel
  induction fuel with
  | zero =>
    intro t ht hfuel
    obtain ⟨cur, hL, hf⟩ := hno t ht
    refine ⟨t, le_refl t, by omega, ?_⟩
    rw [checkDownload, hL]
    simp only [hf]
    rw [if_neg (by omega)]
  | succ f ih =>
    intro t ht hfuel
    obtain ⟨cur, hL, hf⟩ := hno t ht
    by_cases hlt : t - t0 < timeout
    · obtain ⟨u, hu1, hu2, hu3⟩ := ih (t + 100) (by omega) (by omega)
      refine ⟨u, by omega, hu2, ?_⟩
      rw [checkDownload, hL]
      simp only [hf]
      rw [if_pos hlt]
      exact hu3
    · refine ⟨t, le_refl t, by omega, ?_⟩
      rw [checkDownload, hL]
      simp only [hf]
      rw [if_neg hlt]

/-- Progress: if the directory lists as a constant baseline until time `u`
and every listing from `u` on throws, and the timeout has not elapsed by
`u`, the loop polls up to `u` and then resolves by propagating the error
(never by converting it into a timeout), given fuel covering the polls up
to `u`. -/
theorem checkDownload_unreadable_fails (env : Env) (dir : String) (t0 timeout : Nat)
    (init base : List String) (u : Nat) (e : IOErr)
    (hbefore : ∀ t, t < u → env.listDir t = Except.ok base)
    (hafter : ∀ t, u ≤ t → env.listDir t = Except.error e)
    (hfilter : base.filter (fun f => !(init.contains f)) = [])
    (hu : u ≤ t0 + timeout) :
    ∀ fuel t, t0 ≤ t → u ≤ t + 100 * fuel →
      ∃ v, checkDownload env dir t0 timeout init t (fuel + 1) =
        some (WatchOutcome.failed e v) := by
  intro fuel
  induction fuel with
  | zero =>
    intro t ht hfuel
    refine ⟨t, ?_⟩
    rw [checkDownload, hafter t (by omega)]
  | succ f ih =>
    intro t ht hfuel
    by_cases hut : u ≤ t
    · refine ⟨t, ?_⟩
      rw [checkDownload, hafter t hut]
    · obtain ⟨v, hv⟩ := ih (t + 100) (by omega) (by omega)
      refine ⟨v, ?_⟩
      rw [checkDownload, hbefore t (by omega)]
      simp only [hfilter]
      rw [if_pos (by omega)]
      exact hv

/-- A directory that is always empty: no file ever appears. -/
def emptyEnv : Env where
  listDir := fun _ => Except.ok []
  statSize := fun _ _ => Except.ok 0

/-- A directory that starts empty; at 100 ms the file "map.json" appears,
written in one shot (its size stats as 500 from then on). -/
def stableEnv : Env where
  listDir := fun t => if t < 100 then Except.ok [] else Except.ok ["map.json"]
  statSize := fun _ _ => Except.ok 500

/-- A directory that starts empty; at every later instant the file
"map.json" is present but still growing: its size stats as the current
time, so every pair of reads 100 ms apart disagrees. -/
def growingEnv : Env where
  listDir := fun t => if t = 0 then Except.ok [] else Except.ok ["map.json"]
  statSize := fun t _ => Except.ok t

/-- A directory whose listing always throws (for example, it was never
created). -/
def errEnv : Env where
  listDir := fun _ => Except.error "ENOENT"
  statSize := fun _ _ => Except.error "ENOENT"

/-- A directory that starts empty; at every later instant the entry
"part.tmp" is listed, but statting it always throws (the file vanished
between the listing and the stat). -/
def vanishEnv : Env where
  listDir := fun t => if t = 0 then Except.ok [] else Except.ok ["part.tmp"]
  statSize := fun _ _ => Except.error "ENOENT"

/-- A directory that always contains exactly "old.json", whose size keeps
changing (stats as the current time): a pre-existing file being
overwritten, never a new entry. -/
def overwriteEnv : Env where
  listDir := fun _ => Except.ok ["old.json"]
  statSize := fun t _ => Except.ok t

/-- In `growingEnv`, once the growing candidate is visible (any poll at
time 100 or later), the loop stats it twice, sees different sizes, and
re-enters itself without ever consulting the timeout: no amount of fuel
makes it resolve. -/
theorem growingEnv_loop_never_resolves :
    ∀ fuel t, 100 ≤ t →
      checkDownload growingEnv "downloads" 0 300 [] t fuel = none := by
  intro fuel
  induction fuel with
  | zero => intro t ht; rfl
  | succ f ih =>
    intro t ht
    have hL : growingEnv.listDir t = Except.ok ["map.json"] := by
      simp only [growingEnv]
      rw [if_neg (by omega)]
    have hs1 : growingEnv.statSize t "map.json" = Except.ok t := rfl
    have hs2 : growingEnv.statSize (t + 100) "map.json" = Except.ok (t + 100) := rfl
    rw [checkDownload, hL]
    have hf : (["map.json"] : List String).filter
        (fun f => !(List.contains ([] : List String) f)) = ["map.json"] := rfl
    simp only [hf, hs1, hs2]
    rw [if_neg (by omega)]
    exact ih (t + 100) (by omega)

/-- Claim C1: for every call `watch(directory, timeoutMs)` and every
behavior of the observed directory, the call returns within `timeoutMs`
plus at most one poll interval — REFUTED.  In `growingEnv` a candidate
file appears at 100 ms and its size differs on every consecutive pair of
reads; with `timeoutMs = 300` the watcher never resolves: for every number
of poll cycles the run is still in progress, because the timeout is only
consulted on polls that list no new entry. -/
theorem growing_download_never_resolves :
    ∀ fuel, waitForDownload growingEnv "downloads" 0 300 fuel = none := by
  intro fuel
  have h0 : growingEnv.listDir 0 = Except.ok [] := rfl
  cases fuel with
  | zero =>
    rw [waitForDownload, h0]
    rfl
  | succ f =>
    simp only [waitForDownload, h0]
    rw [checkDownload, h0]
    have hf : (([] : List String)).filter
        (fun f => !(List.contains ([] : List String) f)) = [] := rfl
    simp only [hf]
    rw [if_pos (by omega)]
    exact growingEnv_loop_never_resolves f 100 (by omega)

/-- Claim C2 counterexample: the claim says a download timeout leads to a
non-zero process exit code; in the code the `else` branch only logs
`console.error` and the async main resolves normally, so the exit code at
a timed-out watch is 0. -/
theorem timeout_exit_code_is_zero :
    (mainFinish "downloads" (WatchOutcome.timedOut 30000)).exitCode = 0 := rfl

/-- Claim C2 (amended): a watcher timeout is non-fatal — the failure
message is reported and both cleanup steps run — but the process then
exits with code 0, the same as on success; exit code 1 arises only from a
thrown error reaching the final catch (which also skips the cleanup). -/
theorem timeout_nonfatal_exits_zero (dir p : String) (e : IOErr) (t : Nat) :
    (mainFinish dir (WatchOutcome.timedOut t)).messages =
      ["Failed to download JSON file to: " ++ dir]
    ∧ (mainFinish dir (WatchOutcome.timedOut t)).browserClosed = true
    ∧ (mainFinish dir (WatchOutcome.timedOut t)).serverClosed = true
    ∧ (mainFinish dir (WatchOutcome.timedOut t)).exitCode = 0
    ∧ (mainFinish dir (WatchOutcome.completed p t)).exitCode = 0
    ∧ (mainFinish dir (WatchOutcome.failed e t)).exitCode = 1 :=
  ⟨rfl, rfl, rfl, rfl, rfl, rfl⟩

/-- Claim C3: a watch resolves with a non-null path only if the size of that
file was read twice, the two reads separated by one poll interval (100 ms),
and both reads returned the same size. -/
theorem completed_requires_stable_size (env : Env) (dir : String)
    (t0 timeout fuel tc : Nat) (p : String)
    (hres : waitForDownload env dir t0 timeout fuel =
      some (WatchOutcome.completed p tc)) :
    ∃ u name s,
      env.statSize u name = Except.ok s ∧
      env.statSize (u + 100) name = Except.ok s ∧
      p = pathJoin dir name ∧ tc = u + 100 := by
  rcases hL : env.listDir t0 with e | init
  · rw [waitForDownload] at hres
    rw [hL] at hres
    simp at hres
  · simp only [waitForDownload, hL] at hres
    obtain ⟨u, cur, name, rest, s, _, _, _, h4, h5, h6, h7⟩ :=
      checkDownload_completed_inv env dir t0 timeout init fuel t0 p tc hres
    exact ⟨u, name, s, h4, h5, h6, h7⟩

/-- Claim C3 witness: in `stableEnv` the watch completes with
"downloads/map.json" at 200 ms, and the theorem yields the two equal size
reads 100 ms apart behind it. -/
theorem completed_requires_stable_size_witness :
    waitForDownload stableEnv "downloads" 0 30000 3 =
      some (WatchOutcome.completed "downloads/map.json" 200)
    ∧ ∃ u name s,
        stableEnv.statSize u name = Except.ok s ∧
        stableEnv.statSize (u + 100) name = Except.ok s ∧
        "downloads/map.json" = pathJoin "downloads" name ∧ 200 = u + 100 :=
  ⟨rfl, completed_requires_stable_size stableEnv "downloads" 0 30000 3 200
    "downloads/map.json" rfl⟩

/-- Claim C4 counterexample: the claim says null is returned only on a
poll whose elapsed time strictly exceeds `timeoutMs`; in `emptyEnv` with
`timeoutMs = 300` and polls at 0, 100, 200, 300 ms, the watcher resolves
null at the poll with elapsed time exactly 300, which does not exceed
300. -/
theorem timeout_at_exact_boundary :
    waitForDownload emptyEnv "downloads" 0 300 5 =
      some (WatchOutcome.timedOut 300)
    ∧ ¬ 300 - 0 > 300 :=
  ⟨rfl, by omega⟩

/-- Claim C4 (amended): if no entry beyond the baseline ever appears (and
listings keep succeeding), the watch resolves with the timeout signal null
— not an error — once given fuel covering the timeout; and null is
returned only on a poll whose elapsed time is at least `timeoutMs`
(reaching the timeout exactly already suffices, so "exceeds" must be read
as "reaches or exceeds"). -/
theorem no_new_file_times_out (env : Env) (dir : String) (t0 timeout : Nat)
    (init : List String)
    (hinit : env.listDir t0 = Except.ok init)
    (hno : ∀ t, t0 ≤ t → ∃ cur, env.listDir t = Except.ok cur ∧
      cur.filter (fun f => !(init.contains f)) = []) :
    (∀ fuel, timeout ≤ 100 * fuel →
      ∃ u, timeout ≤ u - t0 ∧
        waitForDownload env dir t0 timeout (fuel + 1) =
          some (WatchOutcome.timedOut u))
    ∧ (∀ fuel u,
        waitForDownload env dir t0 timeout fuel = some (WatchOutcome.timedOut u) →
        t0 ≤ u ∧ timeout ≤ u - t0) := by
  constructor
  · intro fuel hfuel
    obtain ⟨u, _, hu2, hu3⟩ :=
      checkDownload_no_new_times_out env dir t0 timeout init hno fuel t0
        (le_refl t0) (by omega)
    refine ⟨u, hu2, ?_⟩
    simp only [waitForDownload, hinit]
    exact hu3
  · intro fuel u h
    simp only [waitForDownload, hinit] at h
    obtain ⟨h1, h2, _⟩ :=
      checkDownload_timedOut_inv env dir t0 timeout init fuel t0 u (le_refl t0) h
    exact ⟨h1, h2⟩

/-- Claim C4 witness: the amended statement instantiated at `emptyEnv`
with `timeoutMs = 300`. -/
theorem no_new_file_times_out_witness :
    (∀ fuel, 300 ≤ 100 * fuel →
      ∃ u, 300 ≤ u - 0 ∧
        waitForDownload emptyEnv "downloads" 0 300 (fuel + 1) =
          some (WatchOutcome.timedOut u))
    ∧ (∀ fuel u,
        waitForDownload emptyEnv "downloads" 0 300 fuel =
          some (WatchOutcome.timedOut u) →
        0 ≤ u ∧ 300 ≤ u - 0) :=
  no_new_file_times_out emptyEnv "downloads" 0 300 [] rfl
    (fun _ _ => ⟨[], rfl, rfl⟩)

/-- Claim C5: whenever a poll finds entries beyond the baseline, the first
new entry in enumeration order (the head of the filtered current listing)
becomes the candidate, and every non-null result is the watched directory
joined with the name of that candidate. -/
theorem completed_is_first_new_entry (env : Env) (dir : String)
    (t0 timeout fuel tc : Nat) (p : String) (init : List String)
    (hinit : env.listDir t0 = Except.ok init)
    (hres : waitForDownload env dir t0 timeout fuel =
      some (WatchOutcome.completed p tc)) :
    ∃ u cur name rest,
      env.listDir u = Except.ok cur ∧
      cur.filter (fun f => !(init.contains f)) = name :: rest ∧
      p = pathJoin dir name := by
  simp only [waitForDownload, hinit] at hres
  obtain ⟨u, cur, name, rest, s, _, h2, h3, _, _, h6, _⟩ :=
    checkDownload_completed_inv env dir t0 timeout init fuel t0 p tc hres
  exact ⟨u, cur, name, rest, h2, h3, h6⟩

/-- Claim C5 witness: in `stableEnv` the completed path is the directory
joined with the head of the filtered listing of some poll. -/
theorem completed_is_first_new_entry_witness :
    ∃ u cur name rest,
      stableEnv.listDir u = Except.ok cur ∧
      cur.filter (fun f => !(List.contains ([] : List String) f)) = name :: rest ∧
      "downloads/map.json" = pathJoin "downloads" name :=
  completed_is_first_new_entry stableEnv "downloads" 0 30000 3 200
    "downloads/map.json" [] rfl rfl

/-- Claim C8: each invocation captures a fresh baseline at its own start
time (the listing at that instant) and shares no other state.  If from the
start of the second call the directory listing is constant — so the file left
over by a previous successful call sits in the constant listing, hence in
the fresh baseline — the second call times out and never reports any file. -/
theorem fresh_baseline_no_rereport (env : Env) (dir : String)
    (t2 timeout : Nat) (base : List String)
    (hconst : ∀ t, t2 ≤ t → env.listDir t = Except.ok base) :
    ∀ fuel, timeout ≤ 100 * fuel →
      env.listDir t2 = Except.ok base
      ∧ (∃ u, waitForDownload env dir t2 timeout (fuel + 1) =
          some (WatchOutcome.timedOut u))
      ∧ ∀ p tc, waitForDownload env dir t2 timeout (fuel + 1) ≠
          some (WatchOutcome.completed p tc) := by
  intro fuel hfuel
  have hinit : env.listDir t2 = Except.ok base := hconst t2 (le_refl t2)
  have hno : ∀ t, t2 ≤ t → ∃ cur, env.listDir t = Except.ok cur ∧
      cur.filter (fun f => !(base.contains f)) = [] :=
    fun t ht => ⟨base, hconst t ht, filter_new_eq_nil base base (fun a ha => ha)⟩
  obtain ⟨u, _, _, hu3⟩ :=
    checkDownload_no_new_times_out env dir t2 timeout base hno fuel t2
      (le_refl t2) (by omega)
  have hres : waitForDownload env dir t2 timeout (fuel + 1) =
      some (WatchOutcome.timedOut u) := by
    simp only [waitForDownload, hinit]
    exact hu3
  refine ⟨hinit, ⟨u, hres⟩, ?_⟩
  intro p tc hc
  rw [hres] at hc
  simp at hc

/-- Claim C8 witness: in `stableEnv` a first watch from time 0 completes
with "downloads/map.json" at 200 ms; a second watch started at 200 ms with
no further activity has the leftover file in its fresh baseline, times out,
and never re-reports it. -/
theorem fresh_baseline_no_rereport_witness :
    waitForDownload stableEnv "downloads" 0 30000 3 =
      some (WatchOutcome.completed "downloads/map.json" 200)
    ∧ (stableEnv.listDir 200 = Except.ok ["map.json"]
      ∧ (∃ u, waitForDownload stableEnv "downloads" 200 300 (3 + 1) =
          some (WatchOutcome.timedOut u))
      ∧ ∀ p tc, waitForDownload stableEnv "downloads" 200 300 (3 + 1) ≠
          some (WatchOutcome.completed p tc)) :=
  ⟨rfl, fresh_baseline_no_rereport stableEnv "downloads" 200 300 ["map.json"]
    (fun t ht => by
      simp only [stableEnv]
      rw [if_neg (by omega)]) 3 (by omega)⟩

/-- Claim C9: new-file detection compares entry names only — an entry
whose name is in the baseline is never reported by the watch, even if its
size or content changes during the session. -/
theorem baseline_name_never_reported (env : Env) (dir : String)
    (t0 timeout fuel tc : Nat) (init : List String) (name : String)
    (hinit : env.listDir t0 = Except.ok init)
    (hmem : name ∈ init) :
    waitForDownload env dir t0 timeout fuel ≠
      some (WatchOutcome.completed (pathJoin dir name) tc) := by
  intro h
  simp only [waitForDownload, hinit] at h
  obtain ⟨u, cur, name2, rest, s, _, _, h3, _, _, h6, _⟩ :=
    checkDownload_completed_inv env dir t0 timeout init fuel t0
      (pathJoin dir name) tc h
  have hmem2 : name2 ∈ cur.filter (fun f => !(init.contains f)) := by
    rw [h3]
    exact List.mem_cons_self name2 rest
  rw [List.mem_filter] at hmem2
  have hnc : (!(init.contains name2)) = true := hmem2.2
  have hname : name = name2 := pathJoin_right_inj dir name name2 h6
  subst hname
  have hc : init.elem name = true := List.elem_eq_true_of_mem hmem
  rw [List.contains, hc] at hnc
  simp at hnc

/-- Claim C9 witness: in `overwriteEnv` the pre-existing file "old.json"
keeps changing size, yet the watch never reports it. -/
theorem baseline_name_never_reported_witness :
    "old.json" ∈ ["old.json"]
    ∧ waitForDownload overwriteEnv "downloads" 0 300 5 ≠
        some (WatchOutcome.completed (pathJoin "downloads" "old.json") 200) :=
  ⟨List.mem_cons_self "old.json" [],
    baseline_name_never_reported overwriteEnv "downloads" 0 300 5 200
      ["old.json"] "old.json" rfl (List.mem_cons_self "old.json" [])⟩

/-- Claim C10: if the candidate vanishes between the listing that detected
it and either size read, the corresponding stat throws and that error is
the result of the watcher at that very poll — it neither resumes polling nor
reports a timeout. -/
theorem vanished_candidate_fails (env : Env) (dir : String)
    (t0 timeout fuel t : Nat) (init cur rest : List String)
    (name : String) (e : IOErr)
    (hL : env.listDir t = Except.ok cur)
    (hf : cur.filter (fun f => !(init.contains f)) = name :: rest) :
    (env.statSize t name = Except.error e →
      checkDownload env dir t0 timeout init t (fuel + 1) =
        some (WatchOutcome.failed e t))
    ∧ (∀ s, env.statSize t name = Except.ok s →
        env.statSize (t + 100) name = Except.error e →
        checkDownload env dir t0 timeout init t (fuel + 1) =
          some (WatchOutcome.failed e (t + 100))) := by
  constructor
  · intro h
    rw [checkDownload, hL]
    simp only [hf, h]
  · intro s h1 h2
    rw [checkDownload, hL]
    simp only [hf, h1, h2]

/-- Claim C10 witness: in `vanishEnv` the entry "part.tmp" is listed at
100 ms but its stat throws ENOENT, and the watch step at that poll fails
with ENOENT immediately. -/
theorem vanished_candidate_fails_witness :
    vanishEnv.listDir 100 = Except.ok ["part.tmp"]
    ∧ vanishEnv.statSize 100 "part.tmp" = Except.error "ENOENT"
    ∧ checkDownload vanishEnv "downloads" 0 300 [] 100 (2 + 1) =
        some (WatchOutcome.failed "ENOENT" 100) :=
  ⟨rfl, rfl,
    (vanished_candidate_fails vanishEnv "downloads" 0 300 2 100 []
      ["part.tmp"] [] "part.tmp" "ENOENT" rfl rfl).1 rfl⟩

/-- Filesystem operations a process could perform on the watched
directory: the two read operations the watcher issues (`readdirSync`, the
size part of `statSync`) and the mutating operations available in the same
`fs` module (create/write, make directory, delete, rename), which a
frame-correct watcher must never issue. -/
inductive FsOp where
  | listOp (t : Nat)
  | statOp (t : Nat) (name : String)
  | writeOp (t : Nat) (name : String)
  | mkdirOp (t : Nat) (name : String)
  | removeOp (t : Nat) (name : String)
  | renameOp (t : Nat) (a b : String)
deriving DecidableEq, Repr

/-- An operation is a pure read of the filesystem. -/
def FsOp.isRead : FsOp → Bool
  | .listOp _ => true
  | .statOp _ _ => true
  | _ => false

/-- The inner polling loop again, instrumented: same control flow as
`checkDownload`, additionally recording every filesystem operation the
source issues, in order.  `checkDownloadT_fst` proves the result component
coincides with `checkDownload`. -/
def checkDownloadT (env : Env) (dir : String) (t0 timeout : Nat)
    (initialFiles : List String) : Nat → Nat → Option WatchOutcome × List FsOp
  | _, 0 => (none, [])
  | t, fuel+1 =>
    match env.listDir t with
    | .error e => (some (.failed e t), [.listOp t])
    | .ok currentFiles =>
      match currentFiles.filter (fun f => !(initialFiles.contains f)) with
      | name :: _ =>
        match env.statSize t name with
        | .error e => (some (.failed e t), [.listOp t, .statOp t name])
        | .ok fileSizeBefore =>
          match env.statSize (t + 100) name with
          | .error e =>
            (some (.failed e (t + 100)),
              [.listOp t, .statOp t name, .statOp (t + 100) name])
          | .ok fileSizeAfter =>
            if fileSizeBefore = fileSizeAfter then
              (some (.completed (pathJoin dir name) (t + 100)),
                [.listOp t, .statOp t name, .statOp (t + 100) name])
            else
              ((checkDownloadT env dir t0 timeout initialFiles (t + 100) fuel).1,
                .listOp t :: .statOp t name :: .statOp (t + 100) name ::
                  (checkDownloadT env dir t0 timeout initialFiles (t + 100) fuel).2)
      | [] =>
        if t - t0 < timeout then
          ((checkDownloadT env dir t0 timeout initialFiles (t + 100) fuel).1,
            .listOp t ::
              (checkDownloadT env dir t0 timeout initialFiles (t + 100) fuel).2)
        else
          (some (.timedOut t), [.listOp t])

/-- The watch entry point, instrumented with its operation trace: the
baseline `readdirSync` followed by the operations of the loop. -/
def waitForDownloadT (env : Env) (dir : String) (t0 timeout fuel : Nat) :
    Option WatchOutcome × List FsOp :=
  match env.listDir t0 with
  | .error e => (some (.failed e t0), [FsOp.listOp t0])
  | .ok initialFiles =>
    ((checkDownloadT env dir t0 timeout initialFiles t0 fuel).1,
      FsOp.listOp t0 :: (checkDownloadT env dir t0 timeout initialFiles t0 fuel).2)

/-- The instrumented loop computes the same result as `checkDownload`. -/
theorem checkDownloadT_fst (env : Env) (dir : String) (t0 timeout : Nat)
    (init : List String) :
    ∀ fuel t, (checkDownloadT env dir t0 timeout init t fuel).1 =
      checkDownload env dir t0 timeout init t fuel := by
  intro fuel
  induction fuel with
  | zero => intro t; rfl
  | succ f ih =>
    intro t
    rw [checkDownloadT, checkDownload]
    rcases hL : env.listDir t with e | cur
    · rfl
    · rcases hf : cur.filter (fun f => !(init.contains f)) with _ | ⟨name, rest⟩
      · by_cases hlt : t - t0 < timeout
        · simp only [hf, if_pos hlt]
          exact ih (t + 100)
        · simp only [hf, if_neg hlt]
      · rcases hs1 : env.statSize t name with e | s1
        · simp only [hf, hs1]
        · rcases hs2 : env.statSize (t + 100) name with e | s2
          · simp only [hf, hs1, hs2]
          · by_cases hsz : s1 = s2
            · simp only [hf, hs1, hs2, if_pos hsz]
            · simp only [hf, hs1, hs2, if_neg hsz]
              exact ih (t + 100)

/-- The instrumented watch computes the same result as `waitForDownload`. -/
theorem waitForDownloadT_fst (env : Env) (dir : String) (t0 timeout fuel : Nat) :
    (waitForDownloadT env dir t0 timeout fuel).1 =
      waitForDownload env dir t0 timeout fuel := by
  rw [waitForDownloadT, waitForDownload]
  rcases hL : env.listDir t0 with e | init
  · rfl
  · exact checkDownloadT_fst env dir t0 timeout init fuel t0

/-- Every operation the polling loop issues is a read. -/
theorem checkDownloadT_reads (env : Env) (dir : String) (t0 timeout : Nat)
    (init : List String) :
    ∀ fuel t op, op ∈ (checkDownloadT env dir t0 timeout init t fuel).2 →
      op.isRead = true := by
  intro fuel
  induction fuel with
  | zero =>
    intro t op hop
    simp [checkDownloadT] at hop
  | succ f ih =>
    intro t op hop
    rw [checkDownloadT] at hop
    rcases hL : env.listDir t with e | cur
    · simp only [hL] at hop
      simp at hop
      subst hop
      rfl
    · simp only [hL] at hop
      rcases hf : cur.filter (fun f => !(init.contains f)) with _ | ⟨name, rest⟩
      · simp only [hf] at hop
        by_cases hlt : t - t0 < timeout
        · simp only [if_pos hlt, List.mem_cons] at hop
          rcases hop with h | h
          · subst h; rfl
          · exact ih (t + 100) op h
        · simp only [if_neg hlt] at hop
          simp at hop
          subst hop
          rfl
      · simp only [hf] at hop
        rcases hs1 : env.statSize t name with e | s1
        · simp only [hs1, List.mem_cons] at hop
          rcases hop with h | h
          · subst h; rfl
          · simp at h
            subst h
            rfl
        · simp only [hs1] at hop
          rcases hs2 : env.statSize (t + 100) name with e | s2
          · simp only [hs2, List.mem_cons] at hop
            rcases hop with h | h | h
            · subst h; rfl
            · subst h; rfl
            · simp at h
              subst h
              rfl
          · simp only [hs2] at hop
            by_cases hsz : s1 = s2
            · simp only [if_pos hsz, List.mem_cons] at hop
              rcases hop with h | h | h
              · subst h; rfl
              · subst h; rfl
              · simp at h
                subst h
                rfl
            · simp only [if_neg hsz, List.mem_cons] at hop
              rcases hop with h | h | h | h
              · subst h; rfl
              · subst h; rfl
              · subst h; rfl
              · exact ih (t + 100) op h

/-- Claim C7: the watcher performs no filesystem mutation — every
operation in the trace of any watch execution is a read (a directory
listing or a file-size stat); it never creates, writes, renames or deletes
anything. -/
theorem watch_performs_only_reads (env : Env) (dir : String)
    (t0 timeout fuel : Nat) :
    ∀ op, op ∈ (waitForDownloadT env dir t0 timeout fuel).2 →
      op.isRead = true := by
  intro op hop
  rw [waitForDownloadT] at hop
  rcases hL : env.listDir t0 with e | init
  · rw [hL] at hop
    simp at hop
    subst hop
    rfl
  · rw [hL] at hop
    simp only [List.mem_cons] at hop
    rcases hop with h | h
    · subst h; rfl
    · exact checkDownloadT_reads env dir t0 timeout init fuel t0 op h

/-- Claim C7 witness: a concrete operation of a concrete run, shown to be
in the trace and to be a read. -/
theorem watch_performs_only_reads_witness :
    FsOp.listOp 0 ∈ (waitForDownloadT emptyEnv "downloads" 0 300 1).2
    ∧ (FsOp.listOp 0).isRead = true :=
  ⟨by decide,
    watch_performs_only_reads emptyEnv "downloads" 0 300 1 (FsOp.listOp 0)
      (by decide)⟩

/-- The filesystem operation `op` fails under `env`: the read it denotes
throws when performed. -/
def opFails (env : Env) : FsOp → Prop
  | .listOp t => ∃ e, env.listDir t = Except.error e
  | .statOp t name => ∃ e, env.statSize t name = Except.error e
  | _ => False

/-- Progress: if the listings show no new entry before `u`, show the new
entries `cur` (with candidate head `name`) from `u` on, every size read of
`name` from `u` on throws, and the timeout has not elapsed by `u`, then
the loop polls up to `u` and resolves by propagating the stat error. -/
theorem checkDownload_stat_error_fails (env : Env) (dir : String) (t0 timeout : Nat)
    (init cur rest : List String) (name : String) (u : Nat) (e : IOErr)
    (hbefore : ∀ t, t0 ≤ t → t < u → ∃ b, env.listDir t = Except.ok b ∧
      b.filter (fun f => !(init.contains f)) = [])
    (hafterL : ∀ t, u ≤ t → env.listDir t = Except.ok cur)
    (hf : cur.filter (fun f => !(init.contains f)) = name :: rest)
    (hstat : ∀ t, u ≤ t → env.statSize t name = Except.error e)
    (hu : u ≤ t0 + timeout) :
    ∀ fuel t, t0 ≤ t → u ≤ t + 100 * fuel →
      ∃ v, checkDownload env dir t0 timeout init t (fuel + 1) =
        some (WatchOutcome.failed e v) := by
  intro fuel
  induction fuel with
  | zero =>
    intro t ht hfuel
    have hut : u ≤ t := by omega
    refine ⟨t, ?_⟩
    rw [checkDownload, hafterL t hut]
    simp only [hf, hstat t hut]
  | succ f ih =>
    intro t ht hfuel
    by_cases hut : u ≤ t
    · refine ⟨t, ?_⟩
      rw [checkDownload, hafterL t hut]
      simp only [hf, hstat t hut]
    · obtain ⟨b, hLb, hfb⟩ := hbefore t ht (by omega)
      obtain ⟨v, hv⟩ := ih (t + 100) (by omega) (by omega)
      refine ⟨v, ?_⟩
      rw [checkDownload, hLb]
      simp only [hfb]
      rw [if_pos (by omega)]
      exact hv

/-- If any operation the loop actually performed fails under the
environment, the loop resolved by propagating an error: a failing read is
never survived — in particular never converted into a timeout or a
completion. -/
theorem checkDownloadT_op_fails (env : Env) (dir : String) (t0 timeout : Nat)
    (init : List String) :
    ∀ fuel t op, op ∈ (checkDownloadT env dir t0 timeout init t fuel).2 →
      opFails env op →
      ∃ e v, (checkDownloadT env dir t0 timeout init t fuel).1 =
        some (WatchOutcome.failed e v) := by
  intro fuel
  induction fuel with
  | zero =>
    intro t op hop hfail
    simp [checkDownloadT] at hop
  | succ f ih =>
    intro t op hop hfail
    rw [checkDownloadT] at hop
    rw [checkDownloadT]
    rcases hL : env.listDir t with e | cur
    · exact ⟨e, t, by simp only [hL]⟩
    · simp only [hL] at hop
      simp only [hL]
      rcases hf : cur.filter (fun f => !(init.contains f)) with _ | ⟨name, rest⟩
      · simp only [hf] at hop
        simp only [hf]
        by_cases hlt : t - t0 < timeout
        · simp only [if_pos hlt, List.mem_cons] at hop
          simp only [if_pos hlt]
          rcases hop with h | h
          · subst h
            obtain ⟨e2, he2⟩ := hfail
            rw [hL] at he2
            simp at he2
          · exact ih (t + 100) op h hfail
        · simp only [if_neg hlt] at hop
          simp at hop
          subst hop
          obtain ⟨e2, he2⟩ := hfail
          rw [hL] at he2
          simp at he2
      · simp only [hf] at hop
        simp only [hf]
        rcases hs1 : env.statSize t name with e | s1
        · exact ⟨e, t, by simp only [hs1]⟩
        · simp only [hs1] at hop
          simp only [hs1]
          rcases hs2 : env.statSize (t + 100) name with e | s2
          · exact ⟨e, t + 100, by simp only [hs2]⟩
          · simp only [hs2] at hop
            simp only [hs2]
            by_cases hsz : s1 = s2
            · simp only [if_pos hsz, List.mem_cons] at hop
              rcases hop with h | h | h
              · subst h
                obtain ⟨e2, he2⟩ := hfail
                rw [hL] at he2
                simp at he2
              · subst h
                obtain ⟨e2, he2⟩ := hfail
                rw [hs1] at he2
                simp at he2
              · simp at h
                subst h
                obtain ⟨e2, he2⟩ := hfail
                rw [hs2] at he2
                simp at he2
            · simp only [if_neg hsz, List.mem_cons] at hop
              simp only [if_neg hsz]
              rcases hop with h | h | h | h
              · subst h
                obtain ⟨e2, he2⟩ := hfail
                rw [hL] at he2
                simp at he2
              · subst h
                obtain ⟨e2, he2⟩ := hfail
                rw [hs1] at he2
                simp at he2
              · subst h
                obtain ⟨e2, he2⟩ := hfail
                rw [hs2] at he2
                simp at he2
              · exact ih (t + 100) op h hfail

/-- Claim C6: a missing directory at the start of a watch, or a directory
that becomes unreadable mid-watch — a directory listing or a size read
fails — makes the call fail with the I/O error (which in the source
propagates and aborts the sequence); the failure is never converted into a
null timeout result.  Four parts: (1) the baseline listing fails; (2) the
listings start throwing at a time `u` before the deadline; (3) a new file
appears at `u` before the deadline and its size reads throw; (4) fully
generally, if any listing or size read the watch actually performed fails,
the watch resolved by propagating an error, never with the null timeout. -/
theorem io_error_propagates :
    (∀ (env : Env) (dir : String) (t0 timeout fuel : Nat) (e : IOErr),
      env.listDir t0 = Except.error e →
      waitForDownload env dir t0 timeout fuel = some (WatchOutcome.failed e t0))
    ∧ (∀ (env : Env) (dir : String) (t0 timeout : Nat) (base : List String)
        (u : Nat) (e : IOErr),
        t0 < u → u ≤ t0 + timeout →
        (∀ t, t < u → env.listDir t = Except.ok base) →
        (∀ t, u ≤ t → env.listDir t = Except.error e) →
        ∀ fuel, u ≤ t0 + 100 * fuel →
          (∃ v, waitForDownload env dir t0 timeout (fuel + 1) =
            some (WatchOutcome.failed e v))
          ∧ ∀ w, waitForDownload env dir t0 timeout (fuel + 1) ≠
              some (WatchOutcome.timedOut w))
    ∧ (∀ (env : Env) (dir : String) (t0 timeout : Nat)
        (base cur rest : List String) (name : String) (u : Nat) (e : IOErr),
        t0 < u → u ≤ t0 + timeout →
        (∀ t, t < u → env.listDir t = Except.ok base) →
        (∀ t, u ≤ t → env.listDir t = Except.ok cur) →
        cur.filter (fun f => !(base.contains f)) = name :: rest →
        (∀ t, u ≤ t → env.statSize t name = Except.error e) →
        ∀ fuel, u ≤ t0 + 100 * fuel →
          (∃ v, waitForDownload env dir t0 timeout (fuel + 1) =
            some (WatchOutcome.failed e v))
          ∧ ∀ w, waitForDownload env dir t0 timeout (fuel + 1) ≠
              some (WatchOutcome.timedOut w))
    ∧ (∀ (env : Env) (dir : String) (t0 timeout fuel : Nat) (op : FsOp),
        op ∈ (waitForDownloadT env dir t0 timeout fuel).2 →
        opFails env op →
        (∃ e v, waitForDownload env dir t0 timeout fuel =
          some (WatchOutcome.failed e v))
        ∧ ∀ w, waitForDownload env dir t0 timeout fuel ≠
            some (WatchOutcome.timedOut w)) := by
  refine ⟨?_, ?_, ?_, ?_⟩
  · intro env dir t0 timeout fuel e h
    simp only [waitForDownload, h]
  · intro env dir t0 timeout base u e ht0u hu hbefore hafter fuel hfuel
    have hinit : env.listDir t0 = Except.ok base := hbefore t0 ht0u
    have hfilter : base.filter (fun f => !(base.contains f)) = [] :=
      filter_new_eq_nil base base (fun a ha => ha)
    obtain ⟨v, hv⟩ :=
      checkDownload_unreadable_fails env dir t0 timeout base base u e
        hbefore hafter hfilter hu fuel t0 (le_refl t0) hfuel
    have hres : waitForDownload env dir t0 timeout (fuel + 1) =
        some (WatchOutcome.failed e v) := by
      simp only [waitForDownload, hinit]
      exact hv
    refine ⟨⟨v, hres⟩, ?_⟩
    intro w hw
    rw [hres] at hw
    simp at hw
  · intro env dir t0 timeout base cur rest name u e ht0u hu hbeforeL hafterL hf
      hstat fuel hfuel
    have hinit : env.listDir t0 = Except.ok base := hbeforeL t0 ht0u
    have hbefore : ∀ t, t0 ≤ t → t < u → ∃ b, env.listDir t = Except.ok b ∧
        b.filter (fun f => !(base.contains f)) = [] :=
      fun t _ hlt => ⟨base, hbeforeL t hlt,
        filter_new_eq_nil base base (fun a ha => ha)⟩
    obtain ⟨v, hv⟩ :=
      checkDownload_stat_error_fails env dir t0 timeout base cur rest name u e
        hbefore hafterL hf hstat hu fuel t0 (le_refl t0) hfuel
    have hres : waitForDownload env dir t0 timeout (fuel + 1) =
        some (WatchOutcome.failed e v) := by
      simp only [waitForDownload, hinit]
      exact hv
    refine ⟨⟨v, hres⟩, ?_⟩
    intro w hw
    rw [hres] at hw
    simp at hw
  · intro env dir t0 timeout fuel op hop hfail
    rcases hL : env.listDir t0 with e | init
    · have hres : waitForDownload env dir t0 timeout fuel =
          some (WatchOutcome.failed e t0) := by
        simp only [waitForDownload, hL]
      refine ⟨⟨e, t0, hres⟩, ?_⟩
      intro w hw
      rw [hres] at hw
      simp at hw
    · simp only [waitForDownloadT, hL, List.mem_cons] at hop
      rcases hop with h | h
      · subst h
        obtain ⟨e2, he2⟩ := hfail
        rw [hL] at he2
        simp at he2
      · obtain ⟨e, v, h1⟩ :=
          checkDownloadT_op_fails env dir t0 timeout init fuel t0 op h hfail
        have hres : waitForDownload env dir t0 timeout fuel =
            some (WatchOutcome.failed e v) := by
          simp only [waitForDownload, hL]
          rw [← checkDownloadT_fst env dir t0 timeout init fuel t0]
          exact h1
        refine ⟨⟨e, v, hres⟩, ?_⟩
        intro w hw
        rw [hres] at hw
        simp at hw

/-- Claim C6 witness: in `vanishEnv` the candidate "part.tmp" is listed at
100 ms but the size read the watch performs there throws ENOENT; that
failing read is in the trace of the concrete run, and the run resolves by
propagating an error, not with the null timeout.  The baseline case is
exercised at `errEnv`, where the directory never exists. -/
theorem io_error_propagates_witness :
    (FsOp.statOp 100 "part.tmp" ∈ (waitForDownloadT vanishEnv "downloads" 0 300 2).2
      ∧ opFails vanishEnv (FsOp.statOp 100 "part.tmp")
      ∧ (∃ e v, waitForDownload vanishEnv "downloads" 0 300 2 =
          some (WatchOutcome.failed e v))
      ∧ (∀ w, waitForDownload vanishEnv "downloads" 0 300 2 ≠
          some (WatchOutcome.timedOut w)))
    ∧ (errEnv.listDir 0 = Except.error "ENOENT"
      ∧ waitForDownload errEnv "downloads" 0 30000 5 =
          some (WatchOutcome.failed "ENOENT" 0)) :=
  ⟨⟨by decide, ⟨"ENOENT", rfl⟩,
    io_error_propagates.2.2.2 vanishEnv "downloads" 0 300 2
      (FsOp.statOp 100 "part.tmp") (by decide) ⟨"ENOENT", rfl⟩⟩,
    ⟨rfl, io_error_propagates.1 errEnv "downloads" 0 30000 5 "ENOENT" rfl⟩⟩

end FMG
